import Mathlib

/-!
Shallow embedding of the gsync repository (package rsync), centred on the
function Sync of rsync_client.go. Bytes are modelled as Nat and byte slices
as List Nat. Go machine integers (uint32 weak checksums, uint64 ordinals)
are modelled as Nat: the scanner only ever increments the ordinal once per
emitted operation and never wraps, and weak checksums are opaque table keys,
so no modular reduction is observable in the embedded code paths.
The types BlockChecksum and BlockOperation, the constant DefaultBlockSize and
the function rollingHash are referenced by rsync_client.go but declared in a
file of the repository that is not part of the provided source; they are
modelled from the spec where their doc comments say so.
-/

set_option autoImplicit false

namespace Gsync

/-- Go error values relevant to Sync: the io.EOF sentinel, the context
cancellation error returned by ctx.Err once a context is done, arbitrary
other errors, and the result of errors.Wrapf, which wraps a cause under a
message. -/
inductive GoErr : Type where
  | eof : GoErr
  | ctxCanceled : GoErr
  | custom : String → GoErr
  | wrap : String → GoErr → GoErr
deriving DecidableEq

/-- Modelled from the spec: the BlockChecksum record, declared outside the
provided source file. Index is the remote block ordinal (uint64), Weak the
32-bit weak checksum, Strong the strong hash digest bytes, Error an optional
failure captured while the entry was produced. -/
structure BlockChecksum : Type where
  Index : Nat
  Weak : Nat
  Strong : List Nat
  Error : Option GoErr
deriving DecidableEq

/-- Modelled from the spec: the BlockOperation record, declared outside the
provided source file. Data is an Option so that the Go nil slice default is
distinguishable from an assigned (possibly empty) payload: none models a
Data field that was never assigned. IndexB keeps its Go zero value 0 when it
was never assigned. -/
structure BlockOperation : Type where
  Index : Nat
  IndexB : Nat
  Data : Option (List Nat)
  Error : Option GoErr
deriving DecidableEq

/-- The Go map from uint32 to slices of BlockChecksum, modelled as an
association list so that per-bucket insertion order is preserved exactly as
the append on line 26 preserves it. -/
abbrev ChecksumTable := List (Nat × List BlockChecksum)

/-- The value of the two-valued Go map read t[weak] (empty bucket when the
key is absent; buckets built by buildTable are never empty). -/
def tableGet (t : ChecksumTable) (k : Nat) : List BlockChecksum :=
  match t.find? (fun p => p.1 == k) with
  | some p => p.2
  | none => []

/-- The ok result of the two-valued Go map read bs, ok := t[weak]. -/
def tableMem (t : ChecksumTable) (k : Nat) : Bool :=
  (t.find? (fun p => p.1 == k)).isSome

/-- One table update t[k] = append(t[k], s), line 26. -/
def tableAppend (t : ChecksumTable) (k : Nat) (s : BlockChecksum) : ChecksumTable :=
  match t with
  | [] => [(k, [s])]
  | p :: rest => if p.1 = k then (p.1, p.2 ++ [s]) :: rest else p :: tableAppend rest k s

/-- Lines 17-27: the table build loop over the drained checksum channel. An
entry carrying a non-nil Error is only warned about and is still indexed
under its weak checksum. -/
def buildTable (cs : List BlockChecksum) : ChecksumTable :=
  cs.foldl (fun t s => tableAppend t s.Weak s) []

/-- Modelled from the spec: the default block size, declared outside the
provided source file; the spec only says it is a fixed positive default. In
the provided source it is used solely as the capacity argument on line 30,
so its exact value does not influence the embedded semantics. -/
def DefaultBlockSize : Nat := 6 * 1024

/-- Line 30: buffer := make([]byte, 0, DefaultBlockSize). The make builtin
with an explicit length argument 0 yields a slice of length 0 (and capacity
DefaultBlockSize); bufferLen is that length, the number of bytes each call
r.Read(buffer) may deliver. -/
def bufferLen : Nat := 0

/-- The Go hash.Hash method Sum: it appends the digest of the current hash
state to its argument and does not write the argument into the state. The
state of the hash passed to Sync is hstate (never changed by Sync, which
never calls Write or Reset), and hashFn maps a state to its digest. Line 64
computes shash.Sum(block). -/
def goSum (hashFn : List Nat → List Nat) (hstate : List Nat) (b : List Nat) : List Nat :=
  b ++ hashFn hstate

/-- Lines 63-69: the candidate loop. For each candidate b of the bucket, if
bytes.Compare(digest, b.Strong) == 0, that is digest = b.Strong, the field
op.IndexB is overwritten with b.Index; there is no early exit, so a later
match overwrites an earlier one. acc is the value of op.IndexB before the
loop (the zero value 0). -/
def matchIndexB (digest : List Nat) (bs : List BlockChecksum) (acc : Nat) : Nat :=
  bs.foldl (fun ib b => if digest == b.Strong then b.Index else ib) acc

/-- Direction of a Go channel type. -/
inductive ChanDir : Type where
  | bidir : ChanDir
  | sendOnly : ChanDir
  | recvOnly : ChanDir
deriving DecidableEq

/-- A receive expression is well typed on a channel only when its direction
permits receiving. -/
def canRecv : ChanDir → Bool
  | ChanDir.sendOnly => false
  | _ => true

/-- Line 31 together with lines 15 and 79: o := make(chan<- BlockOperation)
creates a channel of the send-only direction, and Sync returns o at the
return type chan<- BlockOperation. This is the direction of the channel the
caller of Sync obtains. -/
def syncChanDir : ChanDir := ChanDir.sendOnly

/-- Events performed by the scanner goroutine on the output channel: a send
of one operation, or closing the channel (the deferred close on line 34). -/
inductive SyncEvent : Type where
  | send : BlockOperation → SyncEvent
  | close : SyncEvent
deriving DecidableEq

/-- The observable behaviour of one run of the scanner goroutine: the list
of channel events in program order, and whether the goroutine returned
(finished = true) or the run was cut off by the fuel bound while the loop
was still going (finished = false). Each send is modelled as completing. -/
structure ScanResult : Type where
  events : List SyncEvent
  finished : Bool
deriving DecidableEq

/-- The readiness of ctx.Done() at the cancellation check of iteration
check: a Go context, once done, stays done, so cancellation is modelled as
an optional first check index at which the context is done. -/
def ctxDone (cancelAt : Option Nat) (check : Nat) : Bool :=
  match cancelAt with
  | some k => k ≤ check
  | none => false

/-- The operation sent on line 40: BlockOperation{Error: ctx.Err()}; all
other fields keep their zero values. -/
def cancelOp : BlockOperation :=
  { Index := 0, IndexB := 0, Data := none, Error := some GoErr.ctxCanceled }

/-- The operation sent on line 53 after a failed read:
BlockOperation{Error: errors.Wrapf(err, "failed reading file")}; all other
fields keep their zero values. -/
def readFailOp (e : GoErr) : BlockOperation :=
  { Index := 0, IndexB := 0, Data := none, Error := some (GoErr.wrap ("failed reading file") e) }

/-- Lines 36-76: the scanner loop of the goroutine, fuel-indexed. The reader
r is modelled as a state machine rd over states σ: rd s cap returns the next
state, the bytes delivered (at most cap of them under the io.Reader
contract, since the read is into a slice of length cap) and the returned
error. Per iteration, in source order: the cancellation select (lines
38-45), the read into buffer (line 47, a slice of length bufferLen = 0), the
io.EOF break (lines 48-50), the read failure return (lines 52-56), the weak
hash of block := buffer[:n] (lines 58-59), the table lookup and candidate
loop or literal assignment (lines 61-72), the send and the ordinal increment
(lines 74-75). Every function return appends the deferred close (line 34). -/
def syncLoop {σ : Type} (rd : σ → Nat → σ × List Nat × Option GoErr)
    (hashFn : List Nat → List Nat) (hstate : List Nat) (rollingHash : List Nat → Nat)
    (t : ChecksumTable) (cancelAt : Option Nat) :
    Nat → σ → Nat → ScanResult
  | 0, _, _ => { events := [], finished := false }
  | fuel + 1, s, index =>
    if ctxDone cancelAt index then
      { events := [SyncEvent.send cancelOp, SyncEvent.close], finished := true }
    else
      match rd s bufferLen with
      | (s2, bytes, err) =>
        if err = some GoErr.eof then
          { events := [SyncEvent.close], finished := true }
        else
          match err with
          | some e =>
            { events := [SyncEvent.send (readFailOp e), SyncEvent.close], finished := true }
          | none =>
            let block := bytes
            let weak := rollingHash block
            let op : BlockOperation :=
              if tableMem t weak then
                { Index := index, IndexB := matchIndexB (goSum hashFn hstate block) (tableGet t weak) 0,
                  Data := none, Error := none }
              else
                { Index := index, IndexB := 0, Data := some block, Error := none }
            let rest := syncLoop rd hashFn hstate rollingHash t cancelAt fuel s2 (index + 1)
            { events := SyncEvent.send op :: rest.events, finished := rest.finished }

/-- Lines 15-79: Sync drains the checksum channel into the table and runs
the scanner goroutine, whose channel-event behaviour this function gives,
starting from reader state r0 and index 0 (line 29). -/
def syncScan {σ : Type} (rd : σ → Nat → σ × List Nat × Option GoErr) (r0 : σ)
    (hashFn : List Nat → List Nat) (hstate : List Nat) (rollingHash : List Nat → Nat)
    (cs : List BlockChecksum) (cancelAt : Option Nat) (fuel : Nat) : ScanResult :=
  syncLoop rd hashFn hstate rollingHash (buildTable cs) cancelAt fuel r0 0

/-- The operations carried by the send events of an event list, in order. -/
def sentOps : List SyncEvent → List BlockOperation
  | [] => []
  | SyncEvent.send op :: evs => op :: sentOps evs
  | SyncEvent.close :: evs => sentOps evs

/-- The ordered sequence of operations Sync emits on the output channel. -/
def syncOps {σ : Type} (rd : σ → Nat → σ × List Nat × Option GoErr) (r0 : σ)
    (hashFn : List Nat → List Nat) (hstate : List Nat) (rollingHash : List Nat → Nat)
    (cs : List BlockChecksum) (cancelAt : Option Nat) (fuel : Nat) : List BlockOperation :=
  sentOps (syncScan rd r0 hashFn hstate rollingHash cs cancelAt fuel).events

/-- A positional byte source over a fixed byte list, the canonical conforming
io.Reader (the semantics of bytes.Reader): at or past the end it reports
io.EOF, otherwise it delivers up to cap of the remaining bytes and advances. -/
structure ByteReader : Type where
  src : List Nat
  pos : Nat
deriving DecidableEq

/-- The Read method of ByteReader. -/
def byteRead (r : ByteReader) (cap : Nat) : ByteReader × List Nat × Option GoErr :=
  if r.src.length ≤ r.pos then
    (r, [], some GoErr.eof)
  else
    let chunk := (r.src.drop r.pos).take cap
    ({ src := r.src, pos := r.pos + chunk.length }, chunk, none)

/-- A scripted io.Reader: each call consumes one script entry and returns
its bytes (truncated to the requested capacity, as the io.Reader contract
demands) and its error; an exhausted script reports io.EOF. -/
abbrev ReadScript := List (List Nat × Option GoErr)

/-- The Read method of the scripted reader. -/
def scriptRead (s : ReadScript) (cap : Nat) : ReadScript × List Nat × Option GoErr :=
  match s with
  | [] => ([], [], some GoErr.eof)
  | step :: rest => (rest, step.1.take cap, step.2)

/-- A script of m clean empty reads followed by a read failing with error e
(delivering bytes bs, discarded by the failure path) and then rest. -/
def failScript (m : Nat) (bs : List Nat) (e : GoErr) (rest : ReadScript) : ReadScript :=
  List.replicate m ([], none) ++ (bs, some e) :: rest

/-- The operation the scanner builds for the chunk it actually reads, which
is always the empty chunk, since every read is into the length-0 buffer:
a candidate-loop operation when the weak checksum of the empty chunk has a
bucket, a literal operation carrying the empty chunk otherwise. -/
def emptyChunkOp (hashFn : List Nat → List Nat) (hstate : List Nat)
    (rollingHash : List Nat → Nat) (t : ChecksumTable) (i : Nat) : BlockOperation :=
  if tableMem t (rollingHash []) then
    { Index := i, IndexB := matchIndexB (goSum hashFn hstate []) (tableGet t (rollingHash [])) 0,
      Data := none, Error := none }
  else
    { Index := i, IndexB := 0, Data := some [], Error := none }

/-- n consecutive send events of empty-chunk operations with ordinals
i, i+1, ..., i+n-1. -/
def emptyChunkSends (hashFn : List Nat → List Nat) (hstate : List Nat)
    (rollingHash : List Nat → Nat) (t : ChecksumTable) : Nat → Nat → List SyncEvent
  | _, 0 => []
  | i, n + 1 =>
    SyncEvent.send (emptyChunkOp hashFn hstate rollingHash t i) ::
      emptyChunkSends hashFn hstate rollingHash t (i + 1) n

/-- Spec, section 8, round trip: concatenating, in ordinal order, the
literal payload of a literal operation and the remote block content
referenced by the IndexB of a non-literal operation; fetch gives the remote
block content at a remote index. -/
def specReconstruct (fetch : Nat → List Nat) : List BlockOperation → List Nat
  | [] => []
  | op :: ops =>
    (match op.Data with
     | some d => d
     | none => fetch op.IndexB) ++ specReconstruct fetch ops

/-- Helper for chunksOf, structurally recursive on a length bound so that it
reduces inside the kernel: each step consumes at least one byte. -/
def chunksOfAux (bs : Nat) : Nat → List Nat → List (List Nat)
  | 0, _ => []
  | _ + 1, [] => []
  | n + 1, a :: l => (a :: l.take (bs - 1)) :: chunksOfAux bs n (l.drop (bs - 1))

/-- Spec-side chunking of a file into consecutive blocks of size bs (the
spec fixes bs positive; for a positive bs each chunk is the next bs bytes). -/
def chunksOf (bs : Nat) (l : List Nat) : List (List Nat) :=
  chunksOfAux bs l.length l

/-- The index selected by reading the bucket back to front and taking the
first candidate whose Strong field equals the digest: the latest-inserted
exact match; 0 when no candidate matches. -/
def lastMatchIndex (digest : List Nat) (bs : List BlockChecksum) : Nat :=
  match bs.reverse.find? (fun b => digest == b.Strong) with
  | some b => b.Index
  | none => 0

/-- True when the list is nonempty and its last element is the close event. -/
def endsWithClose : List SyncEvent → Bool
  | [] => false
  | [e] => e == SyncEvent.close
  | _ :: e :: evs => endsWithClose (e :: evs)

theorem sentOps_send (op : BlockOperation) (evs : List SyncEvent) :
    sentOps (SyncEvent.send op :: evs) = op :: sentOps evs := rfl

theorem emptyChunkSends_succ (hashFn : List Nat → List Nat) (hstate : List Nat)
    (rollingHash : List Nat → Nat) (t : ChecksumTable) (i n : Nat) :
    emptyChunkSends hashFn hstate rollingHash t i (n + 1) =
      SyncEvent.send (emptyChunkOp hashFn hstate rollingHash t i) ::
        emptyChunkSends hashFn hstate rollingHash t (i + 1) n := rfl

/-- The read into the length-0 buffer from a nonempty source delivers no
bytes, no error, and leaves the reader state unchanged. -/
theorem byteRead_zero_of_ne_nil (src : List Nat) (h : src ≠ []) :
    byteRead { src := src, pos := 0 } bufferLen = ({ src := src, pos := 0 }, [], none) := by
  have hlen : ¬ src.length ≤ 0 := by
    have := List.length_pos.mpr h
    omega
  simp [byteRead, bufferLen, hlen]

/-- With no cancellation, a nonempty source and the length-0 read buffer,
the scanner loop never finishes: every fuel step performs one more
empty-chunk iteration. -/
theorem syncLoop_byteRead_forever (hashFn : List Nat → List Nat) (hstate : List Nat)
    (rollingHash : List Nat → Nat) (t : ChecksumTable) (src : List Nat) (h : src ≠ []) :
    ∀ fuel idx, syncLoop byteRead hashFn hstate rollingHash t none fuel { src := src, pos := 0 } idx =
      { events := emptyChunkSends hashFn hstate rollingHash t idx fuel, finished := false } := by
  intro fuel
  induction fuel with
  | zero => intro idx; rfl
  | succ n ih =>
    intro idx
    rw [syncLoop, byteRead_zero_of_ne_nil src h]
    simp only [ctxDone, emptyChunkSends_succ, emptyChunkOp, ih (idx + 1)]
    simp

/-- With cancellation first observed at check k, a nonempty source and
enough fuel, the scanner loop performs k empty-chunk iterations, then sends
the single cancellation operation and closes. -/
theorem syncLoop_byteRead_cancel (hashFn : List Nat → List Nat) (hstate : List Nat)
    (rollingHash : List Nat → Nat) (t : ChecksumTable) (src : List Nat) (h : src ≠ []) (k : Nat) :
    ∀ fuel idx, idx ≤ k → k - idx < fuel →
      syncLoop byteRead hashFn hstate rollingHash t (some k) fuel { src := src, pos := 0 } idx =
        { events := emptyChunkSends hashFn hstate rollingHash t idx (k - idx) ++
            [SyncEvent.send cancelOp, SyncEvent.close], finished := true } := by
  intro fuel
  induction fuel with
  | zero => intro idx _ hlt; omega
  | succ n ih =>
    intro idx hle hlt
    by_cases hk : k ≤ idx
    · have hidx : idx = k := by omega
      rw [syncLoop]
      simp [ctxDone, hidx, emptyChunkSends]
    · have hstep : k - idx = (k - (idx + 1)) + 1 := by omega
      rw [syncLoop, byteRead_zero_of_ne_nil src h]
      have hdone : ctxDone (some k) idx = false := by
        simp [ctxDone]
        omega
      simp only [hdone, Bool.false_eq_true, if_false,
        ih (idx + 1) (by omega) (by omega), hstep, emptyChunkSends_succ, emptyChunkOp]
      simp

/-- With no cancellation, after m clean empty reads a failing read makes the
scanner loop send the single wrapped read-failure operation and close; the
remainder of the script is never read. -/
theorem syncLoop_scriptRead_fail (hashFn : List Nat → List Nat) (hstate : List Nat)
    (rollingHash : List Nat → Nat) (t : ChecksumTable) (bs : List Nat) (e : GoErr)
    (he : e ≠ GoErr.eof) (rest : ReadScript) :
    ∀ m fuel idx, m < fuel →
      syncLoop scriptRead hashFn hstate rollingHash t none fuel (failScript m bs e rest) idx =
        { events := emptyChunkSends hashFn hstate rollingHash t idx m ++
            [SyncEvent.send (readFailOp e), SyncEvent.close], finished := true } := by
  intro m
  induction m with
  | zero =>
    intro fuel idx hfuel
    match fuel, hfuel with
    | n + 1, _ =>
      rw [syncLoop]
      have heq : (some e = some GoErr.eof) = False := by
        simp [he]
      simp [ctxDone, failScript, scriptRead, heq, emptyChunkSends]
  | succ m ih =>
    intro fuel idx hfuel
    match fuel, hfuel with
    | n + 1, _ =>
      rw [syncLoop]
      have hscript : failScript (m + 1) bs e rest = ([], none) :: failScript m bs e rest := by
        simp [failScript, List.replicate_succ]
      simp only [hscript, ctxDone, scriptRead, List.take_nil, if_false,
        ih n (idx + 1) (by omega), emptyChunkSends_succ, emptyChunkOp]
      simp

/-- find? over an append scans the left part first. -/
theorem find?_append {α : Type} (p : α → Bool) :
    ∀ l1 l2 : List α, (l1 ++ l2).find? p =
      match l1.find? p with
      | some x => some x
      | none => l2.find? p := by
  intro l1
  induction l1 with
  | nil => intro l2; rfl
  | cons a l ih =>
    intro l2
    by_cases hpa : p a
    · simp [List.find?, hpa]
    · simp only [Bool.not_eq_true] at hpa
      simp [List.find?, hpa, ih l2]

/-- The candidate loop of lines 63-69 keeps the index of the last matching
candidate of the bucket, the initial accumulator when none matches. -/
theorem matchIndexB_eq_last (digest : List Nat) :
    ∀ (bs : List BlockChecksum) (acc : Nat),
      matchIndexB digest bs acc =
        match bs.reverse.find? (fun b => digest == b.Strong) with
        | some b => b.Index
        | none => acc := by
  intro bs
  induction bs with
  | nil => intro acc; rfl
  | cons b tl ih =>
    intro acc
    have hfold : matchIndexB digest (b :: tl) acc =
        matchIndexB digest tl (if digest == b.Strong then b.Index else acc) := rfl
    rw [hfold, ih, List.reverse_cons, find?_append]
    by_cases hm : digest == b.Strong
    · cases hfind : tl.reverse.find? (fun c => digest == c.Strong) <;>
        simp [List.find?, hm, hfind]
    · simp only [Bool.not_eq_true] at hm
      cases hfind : tl.reverse.find? (fun c => digest == c.Strong) <;>
        simp [List.find?, hm, hfind]

/-- When the table is empty, every empty-chunk operation is a literal
carrying the empty chunk, so the round-trip concatenation over any prefix of
the emitted stream is empty. -/
theorem specReconstruct_emptyTable (hashFn : List Nat → List Nat) (hstate : List Nat)
    (rollingHash : List Nat → Nat) (fetch : Nat → List Nat) :
    ∀ n i, specReconstruct fetch (sentOps (emptyChunkSends hashFn hstate rollingHash [] i n)) = [] := by
  intro n
  induction n with
  | zero => intro i; rfl
  | succ m ih =>
    intro i
    rw [emptyChunkSends_succ, sentOps_send]
    have hop : emptyChunkOp hashFn hstate rollingHash [] i =
        { Index := i, IndexB := 0, Data := some [], Error := none } := by
      simp [emptyChunkOp, tableMem]
    rw [hop]
    simpa [specReconstruct] using ih (i + 1)

/-- Every finishing run of the scanner loop ends with the deferred close. -/
theorem syncLoop_finished_endsWithClose {σ : Type}
    (rd : σ → Nat → σ × List Nat × Option GoErr)
    (hashFn : List Nat → List Nat) (hstate : List Nat) (rollingHash : List Nat → Nat)
    (t : ChecksumTable) (cancelAt : Option Nat) :
    ∀ fuel (s : σ) idx,
      (syncLoop rd hashFn hstate rollingHash t cancelAt fuel s idx).finished = true →
      endsWithClose (syncLoop rd hashFn hstate rollingHash t cancelAt fuel s idx).events = true := by
  intro fuel
  induction fuel with
  | zero => intro s idx hfin; exact absurd hfin (by simp [syncLoop])
  | succ n ih =>
    intro s idx hfin
    rw [syncLoop] at hfin ⊢
    by_cases hdone : ctxDone cancelAt idx
    · simp [hdone, endsWithClose]
    · simp only [hdone, Bool.false_eq_true, if_false] at hfin ⊢
      rcases hrd : rd s bufferLen with ⟨s2, bytes, err⟩
      rw [hrd] at hfin
      dsimp only at hfin ⊢
      by_cases heof : err = some GoErr.eof
      · simp [heof, endsWithClose]
      · rw [if_neg heof] at hfin ⊢
        cases err with
        | some e => simp [endsWithClose]
        | none =>
          dsimp only at hfin ⊢
          have hres := ih s2 (idx + 1) hfin
          cases hevs : (syncLoop rd hashFn hstate rollingHash t cancelAt n s2 (idx + 1)).events with
          | nil =>
            rw [hevs] at hres
            exact absurd hres (by simp [endsWithClose])
          | cons e2 evs =>
            rw [hevs] at hres
            simpa [endsWithClose] using hres

/-- C1: the claim states that a chunk whose weak checksum is found in the
table but whose strong hash matches no candidate in the bucket is emitted as
an operation carrying the chunk as a literal data payload. At a concrete
input realizing exactly that scenario (the weak hash maps every chunk to 0,
the table has one bucket at 0 whose single candidate has Strong [9], and the
digest the code compares is [0]), the emitted operation instead has no Data
payload and no IndexB assignment at all: the claim fails on the code. -/
theorem C1_strong_miss_emits_empty_op :
    tableMem (buildTable [⟨3, 0, [9], none⟩]) 0 = true ∧
    (tableGet (buildTable [⟨3, 0, [9], none⟩]) 0).all
      (fun b => !(b.Strong == goSum (fun l => [l.length]) [] [])) = true ∧
    syncOps byteRead ⟨[1], 0⟩ (fun l => [l.length]) [] (fun _ => 0) [⟨3, 0, [9], none⟩] none 1 =
      [⟨0, 0, none, none⟩] :=
  ⟨by decide, by decide, by decide⟩

/-- C2: the claim states that concatenating, in ordinal order, literal
payloads and referenced remote block contents of the operations emitted by
Sync reproduces the local file byte-for-byte. For the one-byte local source
[1] and the empty checksum set, every operation Sync ever emits (at any fuel
bound, and the scan never finishes) carries the empty literal payload, so
the concatenation is empty and never reproduces [1]: the claim fails on the
code. -/
theorem C2_reconstruction_fails :
    (∀ fuel, specReconstruct (fun _ => [7])
        (syncOps byteRead ⟨[1], 0⟩ (fun _ => []) [] (fun _ => 0) [] none fuel) = []) ∧
    ([1] : List Nat) ≠ [] := by
  constructor
  · intro fuel
    unfold syncOps syncScan
    rw [syncLoop_byteRead_forever (fun _ => []) [] (fun _ => 0) (buildTable []) [1]
      (by decide) fuel 0]
    exact specReconstruct_emptyTable (fun _ => []) [] (fun _ => 0) (fun _ => [7]) fuel 0
  · decide

/-- C3: the claim states that the digest Sync compares against each
candidate Strong field is the strong hash computed over the bytes of the
chunk. With the strong hash primitive mapping a byte list to the one-byte
digest of its length, a hash whose state holds one already-written byte, and
a candidate whose Strong field is exactly the strong hash of the (empty)
chunk, the code compares goSum, that is chunk ++ digest-of-state = [1],
instead of the strong hash [0] of the chunk, so the true-duplicate candidate
fails to match and no reuse is emitted: the claim fails on the code. -/
theorem C3_compared_digest_not_chunk_hash :
    (fun (l : List Nat) => [l.length]) [] = [0] ∧
    goSum (fun l => [l.length]) [5] [] = [1] ∧
    ([1] : List Nat) ≠ [0] ∧
    syncOps byteRead ⟨[1], 0⟩ (fun l => [l.length]) [5] (fun _ => 0) [⟨7, 0, [0], none⟩] none 1 =
      [⟨0, 0, none, none⟩] :=
  ⟨by decide, by decide, by decide, by decide⟩

/-- C4: the claim states that each iteration reads up to one configured
block size of bytes and that end-of-input terminates the stream normally.
The chunk buffer is created with length bufferLen = 0 (line 30), so every
read delivers 0 bytes; on the nonempty one-byte source the scan therefore
never reaches end-of-input and never finishes, at any fuel bound: the claim
fails on the code. -/
theorem C4_scan_never_terminates :
    (∀ fuel,
      (syncScan byteRead ⟨[1], 0⟩ (fun _ => []) [] (fun _ => 0) [] none fuel).finished = false) ∧
    bufferLen = 0 ∧ 0 < DefaultBlockSize := by
  refine ⟨fun fuel => ?_, rfl, by decide⟩
  unfold syncScan
  rw [syncLoop_byteRead_forever (fun _ => []) [] (fun _ => 0) (buildTable []) [1]
    (by decide) fuel 0]

/-- C5: the claim states that the caller can receive the emitted operations
from the stream Sync returns by blocking receive. Sync creates the output
channel with make(chan<- BlockOperation) and returns it at type
chan<- BlockOperation, a send-only direction on which no receive operation
is well typed, so no emitted operation is deliverable to the caller through
the returned channel: the claim fails on the code. -/
theorem C5_returned_channel_not_receivable :
    syncChanDir = ChanDir.sendOnly ∧ canRecv syncChanDir = false :=
  ⟨rfl, rfl⟩

/-- C6: if cancellation is requested (the context becomes done at check k),
the per-chunk cancellation check makes the scanner emit exactly one terminal
operation carrying the cancellation error and produce no further operations:
the whole event trace is the k preceding (error-free, empty-chunk)
operations, then the single cancellation send, then the close. -/
theorem C6_cancellation_single_terminal_op (hashFn : List Nat → List Nat) (hstate : List Nat)
    (rollingHash : List Nat → Nat) (cs : List BlockChecksum) (src : List Nat) (k fuel : Nat)
    (h1 : src ≠ []) (h2 : k < fuel) :
    syncScan byteRead ⟨src, 0⟩ hashFn hstate rollingHash cs (some k) fuel =
      { events := emptyChunkSends hashFn hstate rollingHash (buildTable cs) 0 k ++
          [SyncEvent.send cancelOp, SyncEvent.close], finished := true } := by
  unfold syncScan
  have h := syncLoop_byteRead_cancel hashFn hstate rollingHash (buildTable cs) src h1 k fuel 0
    (Nat.zero_le k) (by omega)
  simpa using h

/-- Witness for C6 at a concrete input: one-byte source, empty checksum set,
cancellation first observed at check 1, fuel 3. -/
theorem C6_cancellation_witness :
    syncScan byteRead ⟨[1], 0⟩ (fun _ => []) [] (fun _ => 0) [] (some 1) 3 =
      { events := emptyChunkSends (fun _ => []) [] (fun _ => 0) (buildTable []) 0 1 ++
          [SyncEvent.send cancelOp, SyncEvent.close], finished := true } :=
  C6_cancellation_single_terminal_op (fun _ => []) [] (fun _ => 0) [] [1] 1 3
    (by decide) (by decide)

/-- C7: on a read failure other than io.EOF after m clean reads, the scanner
emits exactly one terminal operation carrying the wrapped read error and
stops immediately: the trace is the m preceding error-free operations (with
ordinals 0..m-1), then the single wrapped-error send, then the close; the
remainder of the source is never read and no operation with a higher ordinal
is emitted. -/
theorem C7_read_failure_single_terminal_op (hashFn : List Nat → List Nat) (hstate : List Nat)
    (rollingHash : List Nat → Nat) (cs : List BlockChecksum) (bs : List Nat) (e : GoErr)
    (rest : ReadScript) (m fuel : Nat) (h1 : e ≠ GoErr.eof) (h2 : m < fuel) :
    syncScan scriptRead (failScript m bs e rest) hashFn hstate rollingHash cs none fuel =
      { events := emptyChunkSends hashFn hstate rollingHash (buildTable cs) 0 m ++
          [SyncEvent.send (readFailOp e), SyncEvent.close], finished := true } := by
  unfold syncScan
  exact syncLoop_scriptRead_fail hashFn hstate rollingHash (buildTable cs) bs e h1 rest m fuel 0 h2

/-- Witness for C7 at a concrete input: two clean reads, then a failing read,
fuel 4. -/
theorem C7_read_failure_witness :
    syncScan scriptRead (failScript 2 [] (GoErr.custom ("disk")) []) (fun _ => []) []
        (fun _ => 0) [] none 4 =
      { events := emptyChunkSends (fun _ => []) [] (fun _ => 0) (buildTable []) 0 2 ++
          [SyncEvent.send (readFailOp (GoErr.custom ("disk"))), SyncEvent.close],
        finished := true } :=
  C7_read_failure_single_terminal_op (fun _ => []) [] (fun _ => 0) [] [] (GoErr.custom ("disk"))
    [] 2 4 (by decide) (by decide)

/-- C8: the claim states that for a local file producing k chunks the
ordinals of the non-error operations are exactly 0..k-1. The one-byte file
[1] produces exactly one chunk at the configured block size, yet the code
emits three non-error operations with ordinals 0, 1, 2 already at fuel 3
(and unboundedly many beyond), which is not the sequence 0..0: the claim
fails on the code. -/
theorem C8_ordinals_exceed_chunk_count :
    (syncOps byteRead ⟨[1], 0⟩ (fun _ => []) [] (fun _ => 0) [] none 3).map
      (fun op => op.Index) = [0, 1, 2] ∧
    (syncOps byteRead ⟨[1], 0⟩ (fun _ => []) [] (fun _ => 0) [] none 3).all
      (fun op => op.Error.isNone) = true ∧
    (chunksOf DefaultBlockSize [1]).length = 1 ∧
    ([0, 1, 2] : List Nat) ≠ List.range 1 :=
  ⟨by decide, by decide, by decide, by decide⟩

/-- C9 counterexample: the claim states that when several candidates of the
bucket match, the emitted reuse operation references the first exact match
in bucket insertion order. With a bucket holding candidates with remote
indices 1 and 2 in insertion order, both of whose Strong fields equal the
compared digest [9], the emitted operation references index 2, the
later-inserted candidate, not 1: the claim as stated is false. -/
theorem C9_first_match_counterexample :
    tableGet (buildTable [⟨1, 0, [9], none⟩, ⟨2, 0, [9], none⟩]) 0 =
      [⟨1, 0, [9], none⟩, ⟨2, 0, [9], none⟩] ∧
    goSum (fun _ => [9]) [] [] = [9] ∧
    syncOps byteRead ⟨[1], 0⟩ (fun _ => [9]) [] (fun _ => 0)
      [⟨1, 0, [9], none⟩, ⟨2, 0, [9], none⟩] none 1 = [⟨0, 2, none, none⟩] ∧
    (2 : Nat) ≠ 1 :=
  ⟨by decide, by decide, by decide, by decide⟩

/-- C9 amended: when the weak checksum of the chunk has a bucket in the
table, the first emitted operation references the last exact match in bucket
insertion order (the latest-inserted candidate whose Strong field equals the
compared digest), deterministically; 0 when no candidate matches. -/
theorem C9_last_match_selected (hashFn : List Nat → List Nat) (hstate : List Nat)
    (rollingHash : List Nat → Nat) (cs : List BlockChecksum) (src : List Nat) (fuel : Nat)
    (h1 : src ≠ []) (h2 : tableMem (buildTable cs) (rollingHash []) = true) :
    (syncOps byteRead ⟨src, 0⟩ hashFn hstate rollingHash cs none (fuel + 1)).head? =
      some { Index := 0,
             IndexB := lastMatchIndex (goSum hashFn hstate [])
               (tableGet (buildTable cs) (rollingHash [])),
             Data := none, Error := none } := by
  unfold syncOps syncScan
  rw [syncLoop_byteRead_forever hashFn hstate rollingHash (buildTable cs) src h1 (fuel + 1) 0]
  rw [emptyChunkSends_succ, sentOps_send, List.head?_cons]
  unfold emptyChunkOp
  rw [if_pos h2, matchIndexB_eq_last]
  rfl

/-- Witness for C9 at the concrete two-candidate bucket of the
counterexample. -/
theorem C9_last_match_witness :
    (syncOps byteRead ⟨[1], 0⟩ (fun _ => [9]) [] (fun _ => 0)
        [⟨1, 0, [9], none⟩, ⟨2, 0, [9], none⟩] none 1).head? =
      some { Index := 0,
             IndexB := lastMatchIndex (goSum (fun _ => [9]) [] [])
               (tableGet (buildTable [⟨1, 0, [9], none⟩, ⟨2, 0, [9], none⟩]) 0),
             Data := none, Error := none } :=
  C9_last_match_selected (fun _ => [9]) [] (fun _ => 0)
    [⟨1, 0, [9], none⟩, ⟨2, 0, [9], none⟩] [1] 0 (by decide) (by decide)

/-- C10: in every terminating case of the scanner (normal end-of-input, read
failure, or cancellation) the deferred close runs, so every finishing run of
Sync ends its channel-event trace with the close of the output channel. -/
theorem C10_finished_scan_closes_channel {σ : Type}
    (rd : σ → Nat → σ × List Nat × Option GoErr) (r0 : σ)
    (hashFn : List Nat → List Nat) (hstate : List Nat) (rollingHash : List Nat → Nat)
    (cs : List BlockChecksum) (cancelAt : Option Nat) (fuel : Nat)
    (h : (syncScan rd r0 hashFn hstate rollingHash cs cancelAt fuel).finished = true) :
    endsWithClose (syncScan rd r0 hashFn hstate rollingHash cs cancelAt fuel).events = true := by
  unfold syncScan at h ⊢
  exact syncLoop_finished_endsWithClose rd hashFn hstate rollingHash (buildTable cs) cancelAt
    fuel r0 0 h

/-- Witness for C10 at a concrete input: the empty source finishes at once
via end-of-input, and its trace ends with the close. -/
theorem C10_finished_scan_witness :
    (syncScan byteRead ⟨[], 0⟩ (fun _ => []) [] (fun _ => 0) [] none 1).finished = true ∧
    endsWithClose (syncScan byteRead ⟨[], 0⟩ (fun _ => []) [] (fun _ => 0) [] none 1).events
      = true :=
  ⟨by decide,
    C10_finished_scan_closes_channel byteRead ⟨[], 0⟩ (fun _ => []) [] (fun _ => 0) [] none 1
      (by decide)⟩

end Gsync
